import Mathlib

/-!
Verification development for the task-manager repository.

The development gives a shallow embedding of the sync core of the
application (IndexedDB task/connection CRUD, the Notion reconciler
`syncConnection`, the orchestrator `syncAllConnections`, and the eager
single-task push `pushTaskToNotion`) and proves the documented
properties of that core.

Modelling conventions:
- IndexedDB object stores are lists of records plus an auto-increment
  counter (`nextTaskId`); `add` assigns the counter value as the key.
- `localNow()` is modelled as an explicit `now : String` parameter
  supplied by the caller for each operation.
- JavaScript truthiness of optional string fields (`data.source_id ||
  null`, `if (t.source_id)`) is modelled exactly: the empty string is
  falsy, so `x || null` is `strOrNull` and a truthy test on an
  `Option String` requires `some s` with `s ≠ ""`.
- Remote Notion calls are an environment of `Except`-valued functions;
  a thrown exception is an `Except.error`.  The calls issued by one
  execution are recorded as a trace of `RemoteEvent`s.
-/

namespace TaskMgr

/-- A stored task record, as assembled by `dbCreateTask`. -/
structure Task where
  id : Nat
  title : String
  description : String
  completed : Nat
  due_date : Option String
  source : String
  source_id : Option String
  source_url : Option String
  connection_id : Option Nat
  created_at : String
  updated_at : String
deriving DecidableEq

/-- The `config` object of a connection: `{ token, database_id }`. -/
structure ConnConfig where
  token : String
  database_id : String
deriving DecidableEq

/-- A stored connection record. -/
structure Connection where
  id : Nat
  type : String
  name : String
  config : ConnConfig
  enabled : Bool
  last_synced_at : Option String
  created_at : String
deriving DecidableEq

/-- The local store: the `tasks` and `connections` object stores and the
auto-increment key counter of the `tasks` store. -/
structure DB where
  tasks : List Task
  connections : List Connection
  nextTaskId : Nat
deriving DecidableEq

/-- JavaScript `o || d` for an optional string field. -/
def strOrD (o : Option String) (d : String) : String :=
  match o with
  | some s => if s = "" then d else s
  | none => d

/-- JavaScript `o || null` for an optional string field. -/
def strOrNull (o : Option String) : Option String :=
  match o with
  | some s => if s = "" then none else some s
  | none => none

/-- JavaScript `o || null` for an optional numeric field. -/
def natOrNull (o : Option Nat) : Option Nat :=
  match o with
  | some n => if n = 0 then none else some n
  | none => none

/-- The `data` argument of `dbCreateTask`; absent keys are `none`. -/
structure CreateTaskData where
  title : Option String := none
  description : Option String := none
  completed : Option Bool := none
  due_date : Option String := none
  source : Option String := none
  source_id : Option String := none
  source_url : Option String := none
  connection_id : Option Nat := none
deriving DecidableEq

/-- The `fields` argument of `dbUpdateTask`.  Every key a caller could
put in the object is present, including keys that `dbUpdateTask` does
not allow (`id`, `source`, `source_id`, `connection_id`, `created_at`);
an outer `none` is an absent key, an inner `none` is an explicit
`null`. -/
structure TaskFields where
  id : Option Nat := none
  title : Option String := none
  description : Option String := none
  completed : Option Bool := none
  due_date : Option (Option String) := none
  source : Option String := none
  source_id : Option (Option String) := none
  source_url : Option (Option String) := none
  connection_id : Option (Option Nat) := none
  created_at : Option String := none
deriving DecidableEq

/-- `dbCreateTask`: builds the record with defaults and `add`s it under
the next auto-increment key. -/
def dbCreateTask (db : DB) (now : String) (data : CreateTaskData) : DB × Task :=
  let task : Task := {
    id := db.nextTaskId
    title := data.title.getD ""
    description := data.description.getD ""
    completed := if data.completed.getD false then 1 else 0
    due_date := strOrNull data.due_date
    source := strOrD data.source "local"
    source_id := strOrNull data.source_id
    source_url := strOrNull data.source_url
    connection_id := natOrNull data.connection_id
    created_at := now
    updated_at := now }
  ({ db with tasks := db.tasks ++ [task], nextTaskId := db.nextTaskId + 1 }, task)

/-- The loop body of `dbUpdateTask`: copy the allowed keys (`title`,
`description`, `completed`, `due_date`, `source_url`) that are present,
normalizing `completed` to `1`/`0`, then stamp `updated_at`. -/
def applyTaskFields (t : Task) (f : TaskFields) (now : String) : Task :=
  { t with
    title := f.title.getD t.title
    description := f.description.getD t.description
    completed := match f.completed with
      | some b => if b then 1 else 0
      | none => t.completed
    due_date := f.due_date.getD t.due_date
    source_url := f.source_url.getD t.source_url
    updated_at := now }

/-- `dbUpdateTask`: get the record, apply the allowed fields, `put` it
back; `null` when the id is not present. -/
def dbUpdateTask (db : DB) (now : String) (id : Nat) (f : TaskFields) :
    DB × Option Task :=
  match db.tasks.find? (fun t => t.id == id) with
  | none => (db, none)
  | some t =>
      let t2 := applyTaskFields t f now
      ({ db with tasks := db.tasks.map (fun u => if u.id == id then t2 else u) },
       some t2)

/-- `dbDeleteTask`: get the record and delete it when present. -/
def dbDeleteTask (db : DB) (id : Nat) : DB × Option Task :=
  match db.tasks.find? (fun t => t.id == id) with
  | none => (db, none)
  | some t => ({ db with tasks := db.tasks.filter (fun u => u.id != id) }, some t)

/-- The comparator of `dbGetAllTasks` as a `Bool`-valued "less or
equal": incomplete before completed, then `created_at` descending. -/
def taskLE (a b : Task) : Bool :=
  if a.completed != b.completed then a.completed == 0
  else
    match compare b.created_at a.created_at with
    | Ordering.gt => false
    | _ => true

/-- Stable insertion used by `sortTasks`. -/
def insertLE (x : Task) : List Task → List Task
  | [] => [x]
  | y :: ys => if taskLE x y then x :: y :: ys else y :: insertLE x ys

/-- A stable sort by `taskLE`, modelling `Array.prototype.sort` (stable
per the ECMAScript specification) with the comparator above. -/
def sortTasks : List Task → List Task
  | [] => []
  | x :: xs => insertLE x (sortTasks xs)

/-- The `filters` argument of `dbGetAllTasks`. -/
structure TaskFilters where
  source : Option String := none
  completed : Option Bool := none
deriving DecidableEq

/-- `dbGetAllTasks`: `getAll`, filter by source (when truthy) and by
completion (when given), then sort. -/
def dbGetAllTasks (db : DB) (filters : TaskFilters) : List Task :=
  let t1 := match filters.source with
    | some s => if s = "" then db.tasks else db.tasks.filter (fun t => t.source == s)
    | none => db.tasks
  let t2 := match filters.completed with
    | some c => t1.filter (fun t => (t.completed != 0) == c)
    | none => t1
  sortTasks t2

/-- `dbGetAllConnections`. -/
def dbGetAllConnections (db : DB) : List Connection :=
  db.connections

/-- The `fields` argument of `dbUpdateConnection` (the keys the
application passes). -/
structure ConnFields where
  name : Option String := none
  enabled : Option Bool := none
  last_synced_at : Option (Option String) := none
deriving DecidableEq

/-- `dbUpdateConnection`: get, assign the given keys, `put` back. -/
def dbUpdateConnection (db : DB) (id : Nat) (f : ConnFields) :
    DB × Option Connection :=
  match db.connections.find? (fun c => c.id == id) with
  | none => (db, none)
  | some c =>
      let c2 : Connection := { c with
        name := f.name.getD c.name
        enabled := f.enabled.getD c.enabled
        last_synced_at := f.last_synced_at.getD c.last_synced_at }
      ({ db with connections := db.connections.map (fun u => if u.id == id then c2 else u) },
       some c2)

/-- A flattened remote to-do as returned by `notionFetchTodos`. -/
structure RemoteItem where
  source_id : String
  title : String
  completed : Bool
  description : String
  source_url : String
deriving DecidableEq

/-- One remote API call issued by the sync core. -/
inductive RemoteEvent where
  | pushCompletion (source_id : String) (completed : Bool)
  | pushText (source_id : String) (text : String)
  | fetchItems (database_id : String)
deriving DecidableEq

/-- The Remote Client collaborator: each operation may succeed or throw. -/
structure RemoteEnv where
  fetchItems : String → String → Except String (List RemoteItem)
  pushCompletion : String → String → Bool → Except String Unit
  pushText : String → String → String → Except String Unit

/-- `RemoteEvent.isPush`: the event is a push (completion or text). -/
def RemoteEvent.isPush : RemoteEvent → Bool
  | RemoteEvent.pushCompletion _ _ => true
  | RemoteEvent.pushText _ _ => true
  | RemoteEvent.fetchItems _ => false

/-- `RemoteEvent.isFetch`: the event is a pull fetch. -/
def RemoteEvent.isFetch : RemoteEvent → Bool
  | RemoteEvent.fetchItems _ => true
  | _ => false

/-- One `map.set` of the `localBySourceId` construction: a task with a
truthy `source_id` overwrites the entry under its key. -/
def lookupStep (sid : String) (acc : Option Task) (t : Task) : Option Task :=
  match t.source_id with
  | some s => if s ≠ "" then (if s = sid then some t else acc) else acc
  | none => acc

/-- The `localBySourceId` map of `syncConnection`: built from the local
snapshot, keyed by truthy `source_id`, later insertions overwriting
earlier ones; `lookupBySourceId ts sid` is `map.get(sid)`. -/
def lookupBySourceId (ts : List Task) (sid : String) : Option Task :=
  ts.foldl (lookupStep sid) none

/-- One iteration of the pull loop of `syncConnection`: update the
matching local task, or create a new one from the remote item. -/
def pullStep (snapshot : List Task) (connId : Nat) (now : String)
    (db : DB) (todo : RemoteItem) : DB :=
  match lookupBySourceId snapshot todo.source_id with
  | some existing =>
      (dbUpdateTask db now existing.id
        { title := some todo.title
          description := some todo.description
          completed := some todo.completed
          source_url := some (some todo.source_url) }).1
  | none =>
      (dbCreateTask db now
        { title := some todo.title
          description := some todo.description
          completed := some todo.completed
          source_id := some todo.source_id
          source_url := some todo.source_url
          source := some "notion"
          connection_id := some connId }).1

/-- The condition of the orphan-deletion loop of `syncConnection`:
truthy `source_id`, owned by this connection, not seen in the pull. -/
def delCond (remoteIds : List String) (connId : Nat) (loc : Task) : Bool :=
  match loc.source_id with
  | some sid => sid != "" && loc.connection_id == some connId && !(remoteIds.contains sid)
  | none => false

/-- One iteration of the orphan-deletion loop of `syncConnection`. -/
def delStep (remoteIds : List String) (connId : Nat) (db : DB) (loc : Task) : DB :=
  if delCond remoteIds connId loc then (dbDeleteTask db loc.id).1 else db

/-- The `localTasks` snapshot taken at the start of `syncConnection`:
all tasks with source `notion`, for every connection. -/
def notionSnapshot (db : DB) : List Task :=
  dbGetAllTasks db { source := some "notion" }

/-- The push phase of `syncConnection`: one `pushCompletion` call (with
the JavaScript `!!completed` coercion) for every snapshot task that has
a truthy `source_id` and belongs to this connection; individual push
failures are swallowed, so the phase only contributes events. -/
def pushEventsOf (snapshot : List Task) (connId : Nat) : List RemoteEvent :=
  snapshot.filterMap (fun task =>
    match task.source_id with
    | some sid =>
        if sid != "" && task.connection_id == some connId then
          some (RemoteEvent.pushCompletion sid (task.completed != 0))
        else none
    | none => none)

/-- The store transformation of one `syncConnection` run once the fetch
has returned `remoteTodos`: the pull loop over the remote items, the
orphan-deletion loop over the snapshot, and the `last_synced_at`
stamp. -/
def reconcileDB (now : String) (db : DB) (connId : Nat)
    (remoteTodos : List RemoteItem) : DB :=
  let localTasks := notionSnapshot db
  let remoteIds := remoteTodos.map RemoteItem.source_id
  let afterPull := remoteTodos.foldl (pullStep localTasks connId now) db
  let afterDel := localTasks.foldl (delStep remoteIds connId) afterPull
  (dbUpdateConnection afterDel connId { last_synced_at := some (some now) }).1

/-- `syncConnection`: push local completion state, fetch the remote
items, reconcile them into the local store, delete orphans, stamp
`last_synced_at`.  Returns the final store, the trace of remote calls,
and the count of pulled items; an unrecoverable fetch failure is
re-thrown (`Except.error`), while individual push failures are
swallowed. -/
def syncConnection (env : RemoteEnv) (now : String) (db : DB) (conn : Connection) :
    Except String (DB × List RemoteEvent × Nat) :=
  match env.fetchItems conn.config.token conn.config.database_id with
  | Except.error e => Except.error e
  | Except.ok remoteTodos =>
      Except.ok (reconcileDB now db conn.id remoteTodos,
        pushEventsOf (notionSnapshot db) conn.id ++
          [RemoteEvent.fetchItems conn.config.database_id],
        remoteTodos.length)

/-- The per-connection outcome recorded by `syncAllConnections`. -/
inductive SyncOutcome where
  | succeeded (synced : Nat)
  | failed (msg : String)
deriving DecidableEq

/-- One iteration of the loop of `syncAllConnections`: skip disabled or
non-Notion connections, otherwise run `syncConnection` and catch any
error. -/
def syncAllStep (env : RemoteEnv) (now : String)
    (acc : DB × List (Nat × SyncOutcome)) (conn : Connection) :
    DB × List (Nat × SyncOutcome) :=
  if !conn.enabled || conn.type != "notion" then acc
  else
    match syncConnection env now acc.1 conn with
    | Except.ok (db2, _, n) => (db2, acc.2 ++ [(conn.id, SyncOutcome.succeeded n)])
    | Except.error e => (acc.1, acc.2 ++ [(conn.id, SyncOutcome.failed e)])

/-- `syncAllConnections`: sequentially reconcile every enabled Notion
connection, isolating per-connection failures.  The second component is
the log of attempted reconciliations in order. -/
def syncAllConnections (env : RemoteEnv) (now : String) (db : DB) :
    DB × List (Nat × SyncOutcome) :=
  (dbGetAllConnections db).foldl (syncAllStep env now) (db, [])

/-- `pushTaskToNotion`: eagerly push one task edit; any remote failure
inside the `try` block is caught and only logged. -/
def pushTaskToNotion (env : RemoteEnv) (db : DB) (task : Task)
    (updates : TaskFields) : Except String Unit :=
  match task.source_id with
  | none => Except.ok ()
  | some sid =>
      if task.source != "notion" || sid == "" then Except.ok ()
      else
        match (dbGetAllConnections db).find?
            (fun c => some c.id == task.connection_id && c.enabled) with
        | none => Except.ok ()
        | some conn =>
            let attempt : Except String Unit :=
              (match updates.completed with
               | some b => env.pushCompletion conn.config.token sid b
               | none => Except.ok ()).bind (fun _ =>
                match updates.title with
                | some newTitle =>
                    if newTitle != task.title then
                      env.pushText conn.config.token sid newTitle
                    else Except.ok ()
                | none => Except.ok ())
            match attempt with
            | Except.ok _ => Except.ok ()
            | Except.error _ => Except.ok ()

/-- The `body` object built by the add-task form handler: title always,
description and due date only when filled in. -/
def formCreateBody (title : String) (description due_date : Option String) :
    CreateTaskData :=
  { title := some title, description := description, due_date := due_date }

/-- The store component of a successful `syncConnection` run (used to
state concrete instances). -/
def syncDB (env : RemoteEnv) (now : String) (db : DB) (conn : Connection) : DB :=
  match syncConnection env now db conn with
  | Except.ok (d, _, _) => d
  | Except.error _ => db

/-- The trace component of a successful `syncConnection` run. -/
def syncTrace (env : RemoteEnv) (now : String) (db : DB) (conn : Connection) :
    List RemoteEvent :=
  match syncConnection env now db conn with
  | Except.ok (_, t, _) => t
  | Except.error _ => []

/-- The count component of a successful `syncConnection` run. -/
def syncCount (env : RemoteEnv) (now : String) (db : DB) (conn : Connection) : Nat :=
  match syncConnection env now db conn with
  | Except.ok (_, _, n) => n
  | Except.error _ => 0

/-- Store well-formedness maintained by the auto-increment key: task
keys are pairwise distinct and below the counter. -/
def DB.WF (db : DB) : Prop :=
  (db.tasks.map Task.id).Nodup ∧ ∀ t ∈ db.tasks, t.id < db.nextTaskId

/-- The data-model invariant of §3: `source_id` and `connection_id` are
both present or both absent, and `source_id` is present exactly when
the source is non-local. -/
def TaskInv (t : Task) : Prop :=
  (t.source_id.isSome ↔ t.connection_id.isSome) ∧
  (t.source_id.isSome ↔ t.source ≠ "local")

/-- Agreement of two task records on the fields `dbUpdateTask` can
never modify. -/
def coreEq (u v : Task) : Prop :=
  u.id = v.id ∧ u.source = v.source ∧ u.source_id = v.source_id ∧
  u.connection_id = v.connection_id ∧ u.created_at = v.created_at

instance (db : DB) : Decidable db.WF :=
  decidable_of_iff
    ((db.tasks.map Task.id).Nodup ∧ ∀ t ∈ db.tasks, t.id < db.nextTaskId) Iff.rfl

instance (t : Task) : Decidable (TaskInv t) :=
  decidable_of_iff
    ((t.source_id.isSome ↔ t.connection_id.isSome) ∧
     (t.source_id.isSome ↔ t.source ≠ "local")) Iff.rfl

instance (u v : Task) : Decidable (coreEq u v) :=
  decidable_of_iff
    (u.id = v.id ∧ u.source = v.source ∧ u.source_id = v.source_id ∧
     u.connection_id = v.connection_id ∧ u.created_at = v.created_at) Iff.rfl

/-- A concrete remote item used in the concrete instances below. -/
def itemX : RemoteItem :=
  { source_id := "x", title := "Buy", completed := true,
    description := "Page", source_url := "u#x" }

/-- A remote environment whose fetch returns `[itemX]` and whose pushes
succeed. -/
def envA : RemoteEnv :=
  { fetchItems := fun _ _ => Except.ok [itemX],
    pushCompletion := fun _ _ _ => Except.ok (),
    pushText := fun _ _ _ => Except.ok () }

/-- A concrete enabled Notion connection with id 1. -/
def connA : Connection :=
  { id := 1, type := "notion", name := "A",
    config := { token := "tk", database_id := "d1" },
    enabled := true, last_synced_at := none, created_at := "t0" }

/-- A task of connection 1 whose remote counterpart is `itemX`, locally
not yet completed. -/
def taskA : Task :=
  { id := 1, title := "Buy", description := "Page", completed := 0,
    due_date := none, source := "notion", source_id := some "x",
    source_url := some "u#x", connection_id := some 1,
    created_at := "t0", updated_at := "t0" }

/-- A task carrying remote id "x" but owned by a different connection
(id 2). -/
def taskB : Task :=
  { id := 1, title := "old", description := "old", completed := 0,
    due_date := none, source := "notion", source_id := some "x",
    source_url := some "u#x", connection_id := some 2,
    created_at := "t0", updated_at := "t0" }

/-- A task of connection 1 whose remote id "y" is absent from the
remote list `[itemX]`. -/
def taskY : Task :=
  { id := 2, title := "Gone", description := "Page", completed := 0,
    due_date := none, source := "notion", source_id := some "y",
    source_url := some "u#y", connection_id := some 1,
    created_at := "t0", updated_at := "t0" }

/-- A purely local task (no remote identifier). -/
def taskL : Task :=
  { id := 3, title := "loc", description := "", completed := 0,
    due_date := none, source := "local", source_id := none,
    source_url := none, connection_id := none,
    created_at := "t0", updated_at := "t0" }

/-- Store containing only `taskA`. -/
def dbA : DB := { tasks := [taskA], connections := [connA], nextTaskId := 2 }

/-- Store containing only `taskB` (the other connection's task). -/
def dbB : DB := { tasks := [taskB], connections := [connA], nextTaskId := 2 }

/-- Store containing only `taskY` (an orphan for the remote list). -/
def dbY : DB := { tasks := [taskY], connections := [connA], nextTaskId := 3 }

/-- Store containing only the local task. -/
def dbL : DB := { tasks := [taskL], connections := [connA], nextTaskId := 4 }

/-- Empty store with connection A. -/
def dbE : DB := { tasks := [], connections := [connA], nextTaskId := 1 }

theorem coreEq.refl (u : Task) : coreEq u u :=
  ⟨rfl, rfl, rfl, rfl, rfl⟩

theorem coreEq.trans {u v w : Task} (h1 : coreEq u v) (h2 : coreEq v w) : coreEq u w :=
  ⟨h1.1.trans h2.1, h1.2.1.trans h2.2.1, h1.2.2.1.trans h2.2.2.1,
   h1.2.2.2.1.trans h2.2.2.2.1, h1.2.2.2.2.trans h2.2.2.2.2⟩

theorem wf_id_inj {db : DB} (hwf : db.WF) {u v : Task}
    (hu : u ∈ db.tasks) (hv : v ∈ db.tasks) (h : u.id = v.id) : u = v :=
  List.inj_on_of_nodup_map hwf.1 hu hv h

theorem mem_insertLE {x a : Task} (l : List Task) :
    a ∈ insertLE x l ↔ a = x ∨ a ∈ l := by
  induction l with
  | nil => simp [insertLE]
  | cons y ys ih =>
      simp only [insertLE]
      split
      · simp [List.mem_cons]
      · simp only [List.mem_cons, ih]
        tauto

theorem mem_sortTasks {a : Task} (l : List Task) :
    a ∈ sortTasks l ↔ a ∈ l := by
  induction l with
  | nil => simp [sortTasks]
  | cons x xs ih => simp [sortTasks, mem_insertLE, ih, List.mem_cons]

theorem mem_notionSnapshot {db : DB} {u : Task} :
    u ∈ notionSnapshot db ↔ u ∈ db.tasks ∧ u.source = "notion" := by
  simp [notionSnapshot, dbGetAllTasks, mem_sortTasks, List.mem_filter]

theorem lookup_foldl_mem {sid : String} {u : Task} :
    ∀ (ts : List Task) (acc : Option Task),
      ts.foldl (lookupStep sid) acc = some u →
      acc = some u ∨ (u ∈ ts ∧ u.source_id = some sid ∧ sid ≠ "")
  | [], acc, h => Or.inl h
  | t :: ts, acc, h => by
      rcases lookup_foldl_mem ts (lookupStep sid acc t) h with h1 | h1
      · unfold lookupStep at h1
        rcases hs : t.source_id with _ | s
        · rw [hs] at h1
          exact Or.inl h1
        · rw [hs] at h1
          by_cases he : s = ""
          · simp [he] at h1
            exact Or.inl h1
          · simp [he] at h1
            by_cases hm : s = sid
            · rw [if_pos hm] at h1
              obtain rfl : t = u := by injection h1
              exact Or.inr ⟨List.mem_cons_self t ts, by rw [hs, hm], hm ▸ he⟩
            · rw [if_neg hm] at h1
              exact Or.inl h1
      · exact Or.inr ⟨List.mem_cons_of_mem t h1.1, h1.2⟩

theorem lookup_mem {ts : List Task} {sid : String} {u : Task}
    (h : lookupBySourceId ts sid = some u) :
    u ∈ ts ∧ u.source_id = some sid ∧ sid ≠ "" := by
  rcases lookup_foldl_mem ts none h with h1 | h1
  · exact absurd h1 (by simp)
  · exact h1

theorem lookup_foldl_none {sid : String} :
    ∀ (ts : List Task) (acc : Option Task),
      ts.foldl (lookupStep sid) acc = none →
      acc = none ∧ ∀ u ∈ ts, ¬(u.source_id = some sid ∧ sid ≠ "")
  | [], acc, h => ⟨h, by simp⟩
  | t :: ts, acc, h => by
      obtain ⟨h1, h2⟩ := lookup_foldl_none ts (lookupStep sid acc t) h
      have ht : ¬(t.source_id = some sid ∧ sid ≠ "") := by
        intro ⟨hs, hne⟩
        unfold lookupStep at h1
        rw [hs] at h1
        simp [hne] at h1
      refine ⟨?_, ?_⟩
      · unfold lookupStep at h1
        rcases hs : t.source_id with _ | s <;> rw [hs] at h1
        · exact h1
        · by_cases he : s = ""
          · simpa [he] using h1
          · by_cases hm : s = sid
            · exact absurd ⟨by rw [hs, hm], hm ▸ he⟩ ht
            · simpa [he, hm] using h1
      · intro u hu
        rcases List.mem_cons.mp hu with rfl | hu
        · exact ht
        · exact h2 u hu

theorem lookup_isSome_of_mem {ts : List Task} {sid : String} {u : Task}
    (hu : u ∈ ts) (hs : u.source_id = some sid) (hne : sid ≠ "") :
    ∃ v, lookupBySourceId ts sid = some v := by
  rcases h : lookupBySourceId ts sid with _ | v
  · exact absurd ⟨hs, hne⟩ ((lookup_foldl_none ts none h).2 u hu)
  · exact ⟨v, rfl⟩

theorem applyTaskFields_core (t : Task) (f : TaskFields) (now : String) :
    coreEq (applyTaskFields t f now) t :=
  ⟨rfl, rfl, rfl, rfl, rfl⟩

theorem upd_connections (db : DB) (now : String) (i : Nat) (f : TaskFields) :
    (dbUpdateTask db now i f).1.connections = db.connections := by
  unfold dbUpdateTask
  split <;> rfl

theorem upd_nextTaskId (db : DB) (now : String) (i : Nat) (f : TaskFields) :
    (dbUpdateTask db now i f).1.nextTaskId = db.nextTaskId := by
  unfold dbUpdateTask
  split <;> rfl

theorem upd_tasks_map_id (db : DB) (now : String) (i : Nat) (f : TaskFields) :
    (dbUpdateTask db now i f).1.tasks.map Task.id = db.tasks.map Task.id := by
  unfold dbUpdateTask
  cases h : db.tasks.find? (fun t => t.id == i) with
  | none => rfl
  | some t =>
      have ht : t.id = i := by simpa [beq_iff_eq] using List.find?_some h
      simp only [List.map_map]
      refine List.map_congr_left (fun u _ => ?_)
      by_cases hu : u.id = i
      · simp [Function.comp, hu, applyTaskFields, ht]
      · simp [Function.comp, hu]

theorem upd_id_presence {db : DB} {u : Task} (now : String) (i : Nat)
    (f : TaskFields) (hu : u ∈ db.tasks) :
    ∃ v ∈ (dbUpdateTask db now i f).1.tasks, v.id = u.id := by
  have hmm : u.id ∈ (dbUpdateTask db now i f).1.tasks.map Task.id := by
    rw [upd_tasks_map_id]
    exact List.mem_map_of_mem Task.id hu
  obtain ⟨v, hv, hvid⟩ := List.mem_map.mp hmm
  exact ⟨v, hv, hvid⟩

theorem upd_WF {db : DB} (now : String) (i : Nat) (f : TaskFields)
    (hwf : db.WF) : (dbUpdateTask db now i f).1.WF := by
  constructor
  · rw [upd_tasks_map_id]
    exact hwf.1
  · intro t ht
    have : t.id ∈ (dbUpdateTask db now i f).1.tasks.map Task.id :=
      List.mem_map_of_mem Task.id ht
    rw [upd_tasks_map_id] at this
    obtain ⟨v, hv, hvid⟩ := List.mem_map.mp this
    rw [upd_nextTaskId, ← hvid]
    exact hwf.2 v hv

theorem upd_mem_core_bwd {db : DB} {now : String} {i : Nat} {f : TaskFields}
    {u : Task} (hu : u ∈ (dbUpdateTask db now i f).1.tasks) :
    ∃ v ∈ db.tasks, coreEq u v := by
  unfold dbUpdateTask at hu
  revert hu
  cases h : db.tasks.find? (fun t => t.id == i) with
  | none => exact fun hu => ⟨u, hu, coreEq.refl u⟩
  | some t =>
      intro hu
      simp only at hu
      obtain ⟨w, hw, hwe⟩ := List.mem_map.mp hu
      by_cases hc : w.id = i
      · refine ⟨t, List.mem_of_find?_eq_some h, ?_⟩
        rw [← hwe]
        simp [hc]
        exact applyTaskFields_core t f now
      · refine ⟨w, hw, ?_⟩
        rw [← hwe]
        simp [hc]
        exact coreEq.refl w

theorem upd_mem_of_ne {db : DB} {now : String} {i : Nat} {f : TaskFields}
    {v : Task} (hv : v ∈ db.tasks) (hne : v.id ≠ i) :
    v ∈ (dbUpdateTask db now i f).1.tasks := by
  unfold dbUpdateTask
  cases h : db.tasks.find? (fun t => t.id == i) with
  | none => exact hv
  | some t =>
      simp only
      have : (fun u => if u.id == i then applyTaskFields t f now else u) v = v := by
        simp [hne]
      rw [← this]
      exact List.mem_map_of_mem _ hv

theorem upd_result_mem {db : DB} {now : String} {i : Nat} {f : TaskFields}
    {t : Task} (h : db.tasks.find? (fun x => x.id == i) = some t) :
    applyTaskFields t f now ∈ (dbUpdateTask db now i f).1.tasks := by
  unfold dbUpdateTask
  rw [h]
  simp only
  have ht : t.id = i := by simpa [beq_iff_eq] using List.find?_some h
  refine List.mem_map.mpr ⟨t, List.mem_of_find?_eq_some h, ?_⟩
  simp [ht]

theorem create_tasks_eq (db : DB) (now : String) (d : CreateTaskData) :
    (dbCreateTask db now d).1.tasks = db.tasks ++ [(dbCreateTask db now d).2] :=
  rfl

theorem create_nextTaskId (db : DB) (now : String) (d : CreateTaskData) :
    (dbCreateTask db now d).1.nextTaskId = db.nextTaskId + 1 :=
  rfl

theorem create_connections (db : DB) (now : String) (d : CreateTaskData) :
    (dbCreateTask db now d).1.connections = db.connections :=
  rfl

theorem create_id (db : DB) (now : String) (d : CreateTaskData) :
    (dbCreateTask db now d).2.id = db.nextTaskId :=
  rfl

theorem create_WF {db : DB} (now : String) (d : CreateTaskData)
    (hwf : db.WF) : (dbCreateTask db now d).1.WF := by
  constructor
  · rw [create_tasks_eq]
    simp only [List.map_append, List.map_cons, List.map_nil]
    rw [List.nodup_append]
    refine ⟨hwf.1, List.nodup_singleton _, ?_⟩
    intro a ha hb
    simp only [create_id, List.mem_singleton] at hb
    obtain ⟨v, hv, hvid⟩ := List.mem_map.mp ha
    subst hb
    have := hwf.2 v hv
    omega
  · intro t ht
    rw [create_tasks_eq] at ht
    rcases List.mem_append.mp ht with h1 | h1
    · have := hwf.2 t h1
      rw [create_nextTaskId]
      omega
    · simp only [List.mem_singleton] at h1
      subst h1
      rw [create_nextTaskId, create_id]
      omega

theorem del_connections (db : DB) (i : Nat) :
    (dbDeleteTask db i).1.connections = db.connections := by
  unfold dbDeleteTask
  split <;> rfl

theorem del_nextTaskId (db : DB) (i : Nat) :
    (dbDeleteTask db i).1.nextTaskId = db.nextTaskId := by
  unfold dbDeleteTask
  split <;> rfl

theorem del_sub {db : DB} {i : Nat} {u : Task}
    (hu : u ∈ (dbDeleteTask db i).1.tasks) : u ∈ db.tasks := by
  unfold dbDeleteTask at hu
  revert hu
  cases h : db.tasks.find? (fun t => t.id == i) with
  | none => exact id
  | some t =>
      intro hu
      simp only at hu
      exact (List.mem_filter.mp hu).1

theorem del_mem_of_ne {db : DB} {i : Nat} {u : Task}
    (hu : u ∈ db.tasks) (hne : u.id ≠ i) : u ∈ (dbDeleteTask db i).1.tasks := by
  unfold dbDeleteTask
  cases h : db.tasks.find? (fun t => t.id == i) with
  | none => exact hu
  | some t =>
      simp only
      rw [List.mem_filter]
      exact ⟨hu, by simp [hne]⟩

theorem del_no_id {db : DB} {i : Nat} :
    ∀ u ∈ (dbDeleteTask db i).1.tasks, u.id ≠ i := by
  unfold dbDeleteTask
  cases h : db.tasks.find? (fun t => t.id == i) with
  | none =>
      intro u hu
      have := List.find?_eq_none.mp h u hu
      simpa [beq_iff_eq] using this
  | some t =>
      intro u hu
      simp only at hu
      have := (List.mem_filter.mp hu).2
      simpa [bne_iff_ne] using this

theorem del_WF {db : DB} (i : Nat) (hwf : db.WF) : (dbDeleteTask db i).1.WF := by
  constructor
  · unfold dbDeleteTask
    cases h : db.tasks.find? (fun t => t.id == i) with
    | none => exact hwf.1
    | some t =>
        simp only
        exact List.Nodup.sublist ((db.tasks.filter_sublist).map Task.id) hwf.1
  · intro t ht
    rw [del_nextTaskId]
    exact hwf.2 t (del_sub ht)

theorem updConn_tasks (db : DB) (i : Nat) (f : ConnFields) :
    (dbUpdateConnection db i f).1.tasks = db.tasks := by
  unfold dbUpdateConnection
  split <;> rfl

theorem updConn_nextTaskId (db : DB) (i : Nat) (f : ConnFields) :
    (dbUpdateConnection db i f).1.nextTaskId = db.nextTaskId := by
  unfold dbUpdateConnection
  split <;> rfl

theorem upd_core_fwd {db : DB} {u : Task} (now : String) (i : Nat) (f : TaskFields)
    (hwf : db.WF) (hu : u ∈ db.tasks) :
    ∃ v ∈ (dbUpdateTask db now i f).1.tasks, coreEq v u := by
  unfold dbUpdateTask
  cases h : db.tasks.find? (fun t => t.id == i) with
  | none => exact ⟨u, hu, coreEq.refl u⟩
  | some t =>
      simp only
      by_cases hc : u.id = i
      · have ht : t.id = i := by simpa [beq_iff_eq] using List.find?_some h
        obtain rfl : t = u :=
          wf_id_inj hwf (List.mem_of_find?_eq_some h) hu (by rw [ht, hc])
        refine ⟨applyTaskFields t f now, ?_, applyTaskFields_core t f now⟩
        exact List.mem_map.mpr ⟨t, List.mem_of_find?_eq_some h, by simp [ht]⟩
      · exact ⟨u, List.mem_map.mpr ⟨u, hu, by simp [hc]⟩, coreEq.refl u⟩

theorem pullStep_connections (S : List Task) (cid : Nat) (now : String)
    (db : DB) (it : RemoteItem) :
    (pullStep S cid now db it).connections = db.connections := by
  unfold pullStep
  split
  · rw [upd_connections]
  · rw [create_connections]

theorem pullStep_next_mono (S : List Task) (cid : Nat) (now : String)
    (db : DB) (it : RemoteItem) :
    db.nextTaskId ≤ (pullStep S cid now db it).nextTaskId := by
  unfold pullStep
  split
  · rw [upd_nextTaskId]
  · rw [create_nextTaskId]
    omega

theorem pullStep_WF {db : DB} (S : List Task) (cid : Nat) (now : String)
    (it : RemoteItem) (hwf : db.WF) : (pullStep S cid now db it).WF := by
  unfold pullStep
  split
  · exact upd_WF now _ _ hwf
  · exact create_WF now _ hwf

theorem pullStep_core_fwd {db : DB} {u : Task} (S : List Task) (cid : Nat)
    (now : String) (it : RemoteItem) (hwf : db.WF) (hu : u ∈ db.tasks) :
    ∃ v ∈ (pullStep S cid now db it).tasks, coreEq v u := by
  unfold pullStep
  split
  · exact upd_core_fwd now _ _ hwf hu
  · rw [create_tasks_eq]
    exact ⟨u, List.mem_append_left _ hu, coreEq.refl u⟩

theorem pullStep_bwd {S : List Task} {cid : Nat} {now : String} {db : DB}
    {it : RemoteItem} {u : Task} (hu : u ∈ (pullStep S cid now db it).tasks) :
    (∃ v ∈ db.tasks, coreEq u v) ∨
    (u.id = db.nextTaskId ∧ u.source = "notion" ∧
     u.source_id = strOrNull (some it.source_id) ∧
     u.connection_id = natOrNull (some cid)) := by
  unfold pullStep at hu
  revert hu
  split
  · exact fun hu => Or.inl (upd_mem_core_bwd hu)
  · intro hu
    rw [create_tasks_eq] at hu
    rcases List.mem_append.mp hu with h1 | h1
    · exact Or.inl ⟨u, h1, coreEq.refl u⟩
    · simp only [List.mem_singleton] at h1
      subst h1
      refine Or.inr ⟨rfl, ?_, rfl, rfl⟩
      show strOrD (some "notion") "local" = "notion"
      simp [strOrD]

theorem pull_fold_connections (S : List Task) (cid : Nat) (now : String) :
    ∀ (L : List RemoteItem) (db : DB),
      (L.foldl (pullStep S cid now) db).connections = db.connections
  | [], _ => rfl
  | it :: L, db => by
      rw [List.foldl_cons, pull_fold_connections S cid now L _,
        pullStep_connections]

theorem pull_fold_next_mono (S : List Task) (cid : Nat) (now : String) :
    ∀ (L : List RemoteItem) (db : DB),
      db.nextTaskId ≤ (L.foldl (pullStep S cid now) db).nextTaskId
  | [], _ => Nat.le_refl _
  | it :: L, db => by
      rw [List.foldl_cons]
      exact Nat.le_trans (pullStep_next_mono S cid now db it)
        (pull_fold_next_mono S cid now L _)

theorem pull_fold_WF (S : List Task) (cid : Nat) (now : String) :
    ∀ (L : List RemoteItem) {db : DB}, db.WF →
      (L.foldl (pullStep S cid now) db).WF
  | [], _, hwf => hwf
  | it :: L, db, hwf => by
      rw [List.foldl_cons]
      exact pull_fold_WF S cid now L (pullStep_WF S cid now it hwf)

theorem pull_fold_core_fwd (S : List Task) (cid : Nat) (now : String) :
    ∀ (L : List RemoteItem) {db : DB} {u : Task}, db.WF → u ∈ db.tasks →
      ∃ v ∈ (L.foldl (pullStep S cid now) db).tasks, coreEq v u
  | [], _, u, _, hu => ⟨u, hu, coreEq.refl u⟩
  | it :: L, db, u, hwf, hu => by
      rw [List.foldl_cons]
      obtain ⟨w, hw, hwe⟩ := pullStep_core_fwd S cid now it hwf hu
      obtain ⟨v, hv, hve⟩ :=
        pull_fold_core_fwd S cid now L (pullStep_WF S cid now it hwf) hw
      exact ⟨v, hv, hve.trans hwe⟩

theorem pull_fold_bwd (S : List Task) (cid : Nat) (now : String) :
    ∀ (L : List RemoteItem) {db : DB} {u : Task},
      u ∈ (L.foldl (pullStep S cid now) db).tasks →
      (∃ v ∈ db.tasks, coreEq u v) ∨
      (db.nextTaskId ≤ u.id ∧ u.source = "notion" ∧
       (∃ it ∈ L, u.source_id = strOrNull (some it.source_id)) ∧
       u.connection_id = natOrNull (some cid))
  | [], _, u, hu => Or.inl ⟨u, hu, coreEq.refl u⟩
  | it :: L, db, u, hu => by
      rw [List.foldl_cons] at hu
      rcases pull_fold_bwd S cid now L hu with h1 | h1
      · obtain ⟨v, hv, hve⟩ := h1
        rcases pullStep_bwd hv with h2 | h2
        · obtain ⟨w, hw, hwe⟩ := h2
          exact Or.inl ⟨w, hw, hve.trans hwe⟩
        · refine Or.inr ⟨?_, ?_, ⟨it, List.mem_cons_self it L, ?_⟩, ?_⟩
          · rw [hve.1, h2.1]
          · rw [hve.2.1, h2.2.1]
          · rw [hve.2.2.1, h2.2.2.1]
          · rw [hve.2.2.2.1, h2.2.2.2]
      · obtain ⟨hn, hs, ⟨it2, hit2, hsid⟩, hc⟩ := h1
        exact Or.inr ⟨Nat.le_trans (pullStep_next_mono S cid now db it) hn, hs,
          ⟨it2, List.mem_cons_of_mem it hit2, hsid⟩, hc⟩

theorem pull_fold_mem_keep (S : List Task) (cid : Nat) (now : String) :
    ∀ (L : List RemoteItem) {db : DB} {u : Task}, u ∈ db.tasks →
      (∀ it ∈ L, ∀ ex, lookupBySourceId S it.source_id = some ex → ex.id ≠ u.id) →
      u ∈ (L.foldl (pullStep S cid now) db).tasks
  | [], _, u, hu, _ => hu
  | it :: L, db, u, hu, h => by
      rw [List.foldl_cons]
      have hu2 : u ∈ (pullStep S cid now db it).tasks := by
        unfold pullStep
        cases hlk : lookupBySourceId S it.source_id with
        | none =>
            rw [create_tasks_eq]
            exact List.mem_append_left _ hu
        | some ex =>
            exact upd_mem_of_ne hu
              (fun he => h it (List.mem_cons_self it L) ex hlk he.symm)
      exact pull_fold_mem_keep S cid now L hu2
        (fun it2 h2 => h it2 (List.mem_cons_of_mem it h2))

theorem pull_fold_map_id_of_found (S : List Task) (cid : Nat) (now : String) :
    ∀ (L : List RemoteItem) (db : DB),
      (∀ it ∈ L, ∃ ex, lookupBySourceId S it.source_id = some ex) →
      (L.foldl (pullStep S cid now) db).tasks.map Task.id = db.tasks.map Task.id
  | [], _, _ => rfl
  | it :: L, db, h => by
      rw [List.foldl_cons]
      obtain ⟨ex, hex⟩ := h it (List.mem_cons_self it L)
      have hstep : pullStep S cid now db it =
          (dbUpdateTask db now ex.id
            { title := some it.title
              description := some it.description
              completed := some it.completed
              source_url := some (some it.source_url) }).1 := by
        unfold pullStep
        rw [hex]
      rw [hstep,
        pull_fold_map_id_of_found S cid now L _
          (fun it2 h2 => h it2 (List.mem_cons_of_mem it h2)),
        upd_tasks_map_id]

theorem delStep_sub {R : List String} {cid : Nat} {db : DB} {s : Task}
    {u : Task} (hu : u ∈ (delStep R cid db s).tasks) : u ∈ db.tasks := by
  unfold delStep at hu
  revert hu
  split
  · exact del_sub
  · exact id

theorem delStep_connections (R : List String) (cid : Nat) (db : DB) (s : Task) :
    (delStep R cid db s).connections = db.connections := by
  unfold delStep
  split
  · rw [del_connections]
  · rfl

theorem delStep_nextTaskId (R : List String) (cid : Nat) (db : DB) (s : Task) :
    (delStep R cid db s).nextTaskId = db.nextTaskId := by
  unfold delStep
  split
  · rw [del_nextTaskId]
  · rfl

theorem delStep_WF {db : DB} (R : List String) (cid : Nat) (s : Task)
    (hwf : db.WF) : (delStep R cid db s).WF := by
  unfold delStep
  split
  · exact del_WF _ hwf
  · exact hwf

theorem del_fold_sub (R : List String) (cid : Nat) :
    ∀ (S0 : List Task) {db : DB} {u : Task},
      u ∈ (S0.foldl (delStep R cid) db).tasks → u ∈ db.tasks
  | [], _, _, hu => hu
  | s :: S0, db, u, hu => by
      rw [List.foldl_cons] at hu
      exact delStep_sub (del_fold_sub R cid S0 hu)

theorem del_fold_connections (R : List String) (cid : Nat) :
    ∀ (S0 : List Task) (db : DB),
      (S0.foldl (delStep R cid) db).connections = db.connections
  | [], _ => rfl
  | s :: S0, db => by
      rw [List.foldl_cons, del_fold_connections R cid S0, delStep_connections]

theorem del_fold_nextTaskId (R : List String) (cid : Nat) :
    ∀ (S0 : List Task) (db : DB),
      (S0.foldl (delStep R cid) db).nextTaskId = db.nextTaskId
  | [], _ => rfl
  | s :: S0, db => by
      rw [List.foldl_cons, del_fold_nextTaskId R cid S0, delStep_nextTaskId]

theorem del_fold_WF (R : List String) (cid : Nat) :
    ∀ (S0 : List Task) {db : DB}, db.WF → (S0.foldl (delStep R cid) db).WF
  | [], _, hwf => hwf
  | s :: S0, db, hwf => by
      rw [List.foldl_cons]
      exact del_fold_WF R cid S0 (delStep_WF R cid s hwf)

theorem del_fold_keep (R : List String) (cid : Nat) :
    ∀ (S0 : List Task) {db : DB} {u : Task}, u ∈ db.tasks →
      (∀ s ∈ S0, s.id = u.id → delCond R cid s = false) →
      u ∈ (S0.foldl (delStep R cid) db).tasks
  | [], _, _, hu, _ => hu
  | s :: S0, db, u, hu, h => by
      rw [List.foldl_cons]
      have hu2 : u ∈ (delStep R cid db s).tasks := by
        unfold delStep
        split
        · next hc =>
            refine del_mem_of_ne hu (fun he => ?_)
            rw [h s (List.mem_cons_self s S0) he.symm] at hc
            exact Bool.noConfusion hc
        · exact hu
      exact del_fold_keep R cid S0 hu2
        (fun s2 h2 => h s2 (List.mem_cons_of_mem s h2))

theorem del_fold_removed (R : List String) (cid : Nat) {S0 : List Task}
    {db : DB} {s : Task} (hs : s ∈ S0) (hc : delCond R cid s = true) :
    ∀ u ∈ (S0.foldl (delStep R cid) db).tasks, u.id ≠ s.id := by
  obtain ⟨l1, l2, rfl⟩ := List.append_of_mem hs
  rw [List.foldl_append, List.foldl_cons]
  intro u hu
  have hu2 : u ∈ (delStep R cid (l1.foldl (delStep R cid) db) s).tasks :=
    del_fold_sub R cid l2 hu
  revert hu2
  unfold delStep
  rw [if_pos hc]
  exact del_no_id u

theorem del_fold_id_of_all_false (R : List String) (cid : Nat) :
    ∀ (S0 : List Task) (db : DB),
      (∀ s ∈ S0, delCond R cid s = false) →
      S0.foldl (delStep R cid) db = db
  | [], _, _ => rfl
  | s :: S0, db, h => by
      rw [List.foldl_cons]
      have : delStep R cid db s = db := by
        unfold delStep
        rw [h s (List.mem_cons_self s S0)]
        rfl
      rw [this]
      exact del_fold_id_of_all_false R cid S0 db
        (fun s2 h2 => h s2 (List.mem_cons_of_mem s h2))

theorem reconcileDB_eq (now : String) (db : DB) (cid : Nat)
    (L : List RemoteItem) :
    reconcileDB now db cid L =
      (dbUpdateConnection
        ((notionSnapshot db).foldl (delStep (L.map RemoteItem.source_id) cid)
          (L.foldl (pullStep (notionSnapshot db) cid now) db)) cid
        { last_synced_at := some (some now) }).1 :=
  rfl

theorem syncConnection_ok_inv {env : RemoteEnv} {now : String} {db : DB}
    {conn : Connection} {db1 : DB} {tr : List RemoteEvent} {n : Nat}
    (h : syncConnection env now db conn = Except.ok (db1, tr, n)) :
    ∃ L, env.fetchItems conn.config.token conn.config.database_id = Except.ok L ∧
      db1 = reconcileDB now db conn.id L ∧
      tr = pushEventsOf (notionSnapshot db) conn.id ++
        [RemoteEvent.fetchItems conn.config.database_id] ∧
      n = L.length := by
  unfold syncConnection at h
  cases hf : env.fetchItems conn.config.token conn.config.database_id with
  | error e =>
      rw [hf] at h
      exact absurd h (by simp)
  | ok L =>
      rw [hf] at h
      simp only [Except.ok.injEq, Prod.mk.injEq] at h
      exact ⟨L, rfl, h.1.symm, h.2.1.symm, h.2.2.symm⟩

theorem delCond_elim {R : List String} {cid : Nat} {loc : Task}
    (h : delCond R cid loc = true) :
    ∃ sid, loc.source_id = some sid ∧ sid ≠ "" ∧
      loc.connection_id = some cid ∧ sid ∉ R := by
  unfold delCond at h
  revert h
  cases hs : loc.source_id with
  | none => exact fun h => Bool.noConfusion h
  | some sid =>
      intro h
      simp only [Bool.and_eq_true, bne_iff_ne, beq_iff_eq, Bool.not_eq_eq_eq_not,
        Bool.not_true] at h
      refine ⟨sid, rfl, h.1.1, h.1.2, fun hmem => ?_⟩
      rw [List.contains_eq_any_beq] at h
      simp only [List.any_eq_false, beq_iff_eq] at h
      exact h.2 sid hmem rfl

theorem delCond_false_of_seen {R : List String} {cid : Nat} {loc : Task}
    {sid : String} (hs : loc.source_id = some sid) (hmem : sid ∈ R) :
    delCond R cid loc = false := by
  unfold delCond
  rw [hs]
  show (sid != "" && loc.connection_id == some cid && !R.contains sid) = false
  have h1 : (!(R.contains sid)) = false := by
    have h2 : R.contains sid = true := by
      rw [List.contains_eq_any_beq]
      exact List.any_eq_true.mpr ⟨sid, hmem, by simp⟩
    rw [h2]
    rfl
  rw [h1, Bool.and_false]

theorem delCond_true_of {R : List String} {cid : Nat} {loc : Task}
    {sid : String} (hs : loc.source_id = some sid) (hne : sid ≠ "")
    (hc : loc.connection_id = some cid) (hmem : sid ∉ R) :
    delCond R cid loc = true := by
  unfold delCond
  rw [hs]
  have : R.contains sid = false := by
    rw [List.contains_eq_any_beq]
    simp only [List.any_eq_false, beq_iff_eq]
    exact fun x hx he => hmem (he ▸ hx)
  simp [this, hne, hc, hmem]

theorem updConn_WF {db : DB} (i : Nat) (f : ConnFields) (hwf : db.WF) :
    (dbUpdateConnection db i f).1.WF := by
  unfold DB.WF
  rw [updConn_tasks, updConn_nextTaskId]
  exact hwf

theorem reconcile_tasks_eq (now : String) (db : DB) (cid : Nat)
    (L : List RemoteItem) :
    (reconcileDB now db cid L).tasks =
      ((notionSnapshot db).foldl (delStep (L.map RemoteItem.source_id) cid)
        (L.foldl (pullStep (notionSnapshot db) cid now) db)).tasks := by
  rw [reconcileDB_eq, updConn_tasks]

theorem reconcile_WF {db : DB} (now : String) (cid : Nat) (L : List RemoteItem)
    (hwf : db.WF) : (reconcileDB now db cid L).WF := by
  rw [reconcileDB_eq]
  exact updConn_WF _ _
    (del_fold_WF _ _ _ (pull_fold_WF _ _ _ _ hwf))

theorem snapshot_id_lt {db : DB} {s : Task} (hwf : db.WF)
    (hs : s ∈ notionSnapshot db) : s.id < db.nextTaskId :=
  hwf.2 s (mem_notionSnapshot.mp hs).1

theorem reconcile_ensure {db : DB} {L : List RemoteItem} {it : RemoteItem}
    (now : String) (cid : Nat) (hwf : db.WF) (hit : it ∈ L)
    (hne : it.source_id ≠ "") :
    ∃ u ∈ (reconcileDB now db cid L).tasks,
      u.source = "notion" ∧ u.source_id = some it.source_id := by
  rw [reconcile_tasks_eq]
  cases hlk : lookupBySourceId (notionSnapshot db) it.source_id with
  | some ex =>
      obtain ⟨hexS, hexsid, -⟩ := lookup_mem hlk
      obtain ⟨hexdb, hexsrc⟩ := mem_notionSnapshot.mp hexS
      obtain ⟨v, hv, hve⟩ := pull_fold_core_fwd (notionSnapshot db) cid now L hwf hexdb
      refine ⟨v, ?_, by rw [hve.2.1, hexsrc], by rw [hve.2.2.1, hexsid]⟩
      refine del_fold_keep _ _ _ hv (fun s hs he => ?_)
      obtain rfl : s = ex :=
        wf_id_inj hwf (mem_notionSnapshot.mp hs).1 hexdb (by rw [he, hve.1])
      exact delCond_false_of_seen hexsid (List.mem_map.mpr ⟨it, hit, rfl⟩)
  | none =>
      obtain ⟨l1, l2, rfl⟩ := List.append_of_mem hit
      rw [List.foldl_append, List.foldl_cons]
      have hstep : pullStep (notionSnapshot db) cid now
          (l1.foldl (pullStep (notionSnapshot db) cid now) db) it =
          (dbCreateTask (l1.foldl (pullStep (notionSnapshot db) cid now) db) now
            { title := some it.title
              description := some it.description
              completed := some it.completed
              source_id := some it.source_id
              source_url := some it.source_url
              source := some "notion"
              connection_id := some cid }).1 := by
        unfold pullStep
        rw [hlk]
      set dbA := l1.foldl (pullStep (notionSnapshot db) cid now) db with hdbA
      set tc := (dbCreateTask dbA now
        { title := some it.title
          description := some it.description
          completed := some it.completed
          source_id := some it.source_id
          source_url := some it.source_url
          source := some "notion"
          connection_id := some cid }).2 with htc
      have htcid : tc.id = dbA.nextTaskId := rfl
      have hbound : db.nextTaskId ≤ tc.id := by
        rw [htcid]
        exact pull_fold_next_mono _ _ _ l1 db
      have htcsrc : tc.source = "notion" := by
        rw [htc]
        show strOrD (some "notion") "local" = "notion"
        simp [strOrD]
      have htcsid : tc.source_id = some it.source_id := by
        rw [htc]
        show strOrNull (some it.source_id) = some it.source_id
        simp [strOrNull, hne]
      have hmem1 : tc ∈ (pullStep (notionSnapshot db) cid now dbA it).tasks := by
        rw [hstep, create_tasks_eq]
        exact List.mem_append_right _ (List.mem_singleton.mpr rfl)
      have hmem2 : tc ∈ (l2.foldl (pullStep (notionSnapshot db) cid now)
          (pullStep (notionSnapshot db) cid now dbA it)).tasks := by
        refine pull_fold_mem_keep _ _ _ _ hmem1 (fun it2 h2 ex hex he => ?_)
        obtain ⟨hexS, -, -⟩ := lookup_mem hex
        have := snapshot_id_lt hwf hexS
        omega
      refine ⟨tc, ?_, htcsrc, htcsid⟩
      refine del_fold_keep _ _ _ hmem2 (fun s hs he => ?_)
      have := snapshot_id_lt hwf hs
      omega

theorem reconcile_bwd {db : DB} {now : String} {cid : Nat}
    {L : List RemoteItem} {u : Task}
    (hu : u ∈ (reconcileDB now db cid L).tasks) :
    (∃ v ∈ db.tasks, coreEq u v) ∨
    (db.nextTaskId ≤ u.id ∧ u.source = "notion" ∧
     (∃ it ∈ L, u.source_id = strOrNull (some it.source_id)) ∧
     u.connection_id = natOrNull (some cid)) := by
  rw [reconcile_tasks_eq] at hu
  exact pull_fold_bwd _ _ _ L (del_fold_sub _ _ _ hu)

theorem reconcile_seen {db : DB} {now : String} {cid : Nat}
    {L : List RemoteItem} :
    ∀ u ∈ (reconcileDB now db cid L).tasks, u.source = "notion" →
      u.connection_id = some cid → ∀ sid, u.source_id = some sid →
      sid ≠ "" → sid ∈ L.map RemoteItem.source_id := by
  intro u hu hsrc hconn sid hsid hne
  by_contra hnot
  rcases reconcile_bwd hu with h1 | h1
  · obtain ⟨v, hv, hve⟩ := h1
    have hvS : v ∈ notionSnapshot db :=
      mem_notionSnapshot.mpr ⟨hv, by rw [← hve.2.1, hsrc]⟩
    have hvc : delCond (L.map RemoteItem.source_id) cid v = true :=
      delCond_true_of (by rw [← hve.2.2.1, hsid]) hne
        (by rw [← hve.2.2.2.1, hconn]) hnot
    rw [reconcile_tasks_eq] at hu
    exact del_fold_removed (L.map RemoteItem.source_id) cid hvS hvc u hu hve.1
  · obtain ⟨-, -, ⟨it, hit, hsid2⟩, -⟩ := h1
    rw [hsid] at hsid2
    by_cases hez : it.source_id = ""
    · rw [hez] at hsid2
      simp [strOrNull] at hsid2
    · simp only [strOrNull, hez, if_false, ite_false, Option.some.injEq] at hsid2
      subst hsid2
      exact hnot (List.mem_map.mpr ⟨it, hit, rfl⟩)

theorem pushEventsOf_no_fetch {snapshot : List Task} {connId : Nat} :
    ∀ e ∈ pushEventsOf snapshot connId, e.isFetch = false := by
  intro e he
  obtain ⟨t, ht, hte⟩ := List.mem_filterMap.mp he
  revert hte
  cases t.source_id with
  | none => simp
  | some sid =>
      simp only
      split
      · intro hte
        obtain rfl : RemoteEvent.pushCompletion sid (t.completed != 0) = e :=
          by injection hte
        rfl
      · simp

theorem syncAllStep_skip {env : RemoteEnv} {now : String} {db : DB}
    {log : List (Nat × SyncOutcome)} {c : Connection}
    (h : (c.enabled && c.type == "notion") = false) :
    syncAllStep env now (db, log) c = (db, log) := by
  unfold syncAllStep
  have hc : (!c.enabled || c.type != "notion") = true := by
    cases he : c.enabled
    · rfl
    · rw [he] at h
      simp only [Bool.true_and] at h
      simp [bne, h]
  rw [hc]
  rfl

theorem syncAllStep_ok {env : RemoteEnv} {now : String} {db db2 : DB}
    {log : List (Nat × SyncOutcome)} {c : Connection}
    {tr : List RemoteEvent} {n : Nat}
    (h : (c.enabled && c.type == "notion") = true)
    (hr : syncConnection env now db c = Except.ok (db2, tr, n)) :
    syncAllStep env now (db, log) c = (db2, log ++ [(c.id, SyncOutcome.succeeded n)]) := by
  unfold syncAllStep
  have hc : (!c.enabled || c.type != "notion") = false := by
    rw [Bool.and_eq_true] at h
    simp [h.1, bne, h.2]
  rw [hc]
  simp only [Bool.false_eq_true, if_false]
  rw [hr]

theorem syncAllStep_err {env : RemoteEnv} {now : String} {db : DB}
    {log : List (Nat × SyncOutcome)} {c : Connection} {e : String}
    (h : (c.enabled && c.type == "notion") = true)
    (hr : syncConnection env now db c = Except.error e) :
    syncAllStep env now (db, log) c = (db, log ++ [(c.id, SyncOutcome.failed e)]) := by
  unfold syncAllStep
  have hc : (!c.enabled || c.type != "notion") = false := by
    rw [Bool.and_eq_true] at h
    simp [h.1, bne, h.2]
  rw [hc]
  simp only [Bool.false_eq_true, if_false]
  rw [hr]

theorem syncAll_log_aux (env : RemoteEnv) (now : String) :
    ∀ (cs : List Connection) (db : DB) (log : List (Nat × SyncOutcome)),
      (cs.foldl (syncAllStep env now) (db, log)).2.map Prod.fst =
        log.map Prod.fst ++
          (cs.filter (fun c => c.enabled && c.type == "notion")).map Connection.id
  | [], _, _ => by simp
  | c :: cs, db, log => by
      rw [List.foldl_cons, List.filter_cons]
      by_cases hc : (c.enabled && c.type == "notion") = true
      · rw [hc]
        simp only [if_true]
        cases hr : syncConnection env now db c with
        | ok res =>
            obtain ⟨db2, tr, n⟩ := res
            rw [syncAllStep_ok hc hr,
              syncAll_log_aux env now cs db2 (log ++ [(c.id, SyncOutcome.succeeded n)])]
            simp
        | error e =>
            rw [syncAllStep_err hc hr,
              syncAll_log_aux env now cs db (log ++ [(c.id, SyncOutcome.failed e)])]
            simp
      · have hc2 : (c.enabled && c.type == "notion") = false := by
          revert hc
          cases (c.enabled && c.type == "notion") <;> simp
        rw [hc2]
        simp only [Bool.false_eq_true, if_false]
        rw [syncAllStep_skip hc2]
        exact syncAll_log_aux env now cs db log

/-- Claim C10: `dbUpdateTask` only ever modifies the fields `title`,
`description`, `completed`, `due_date`, `source_url` and `updated_at` of
a stored task: for every id and every partial-fields argument, even one
carrying keys such as `id`, `source`, `source_id`, `connection_id` or
`created_at`, every stored record keeps those other fields, and when a
`completed` value is supplied the stored value is normalized to 0 or 1. -/
theorem C10_dbUpdateTask_frame (db : DB) (now : String) (i : Nat) (f : TaskFields) :
    (∀ u ∈ (dbUpdateTask db now i f).1.tasks, ∃ v ∈ db.tasks,
      u.id = v.id ∧ u.source = v.source ∧ u.source_id = v.source_id ∧
      u.connection_id = v.connection_id ∧ u.created_at = v.created_at) ∧
    (∀ b, f.completed = some b → ∀ u ∈ (dbUpdateTask db now i f).1.tasks,
      u.id = i → u.completed = (if b then 1 else 0)) := by
  constructor
  · exact fun u hu => upd_mem_core_bwd hu
  · intro b hb u hu hui
    unfold dbUpdateTask at hu
    revert hu
    cases h : db.tasks.find? (fun t => t.id == i) with
    | none =>
        intro hu
        have := List.find?_eq_none.mp h u hu
        simp [hui] at this
    | some t =>
        intro hu
        simp only at hu
        obtain ⟨w, hw, hwe⟩ := List.mem_map.mp hu
        by_cases hc : w.id = i
        · have he : u = applyTaskFields t f now := by
            rw [← hwe]
            simp [hc]
          rw [he]
          show (match f.completed with
            | some b => if b then 1 else 0
            | none => t.completed) = if b then 1 else 0
          rw [hb]
        · have he : u = w := by
            rw [← hwe]
            simp [hc]
          rw [he] at hui
          exact absurd hui hc

/-- Witness for C10 at a concrete store: an update that tries to
overwrite `id`, `source`, `source_id`, `connection_id` and `created_at`
leaves them unchanged and stores `completed` as 1. -/
theorem C10_dbUpdateTask_frame_witness :
    (∀ u ∈ (dbUpdateTask
        { tasks := [{ id := 1, title := "a", description := "", completed := 0,
                      due_date := none, source := "local", source_id := none,
                      source_url := none, connection_id := none,
                      created_at := "t0", updated_at := "t0" }],
          connections := [], nextTaskId := 2 } "t1" 1
        { id := some 99, title := some "b", completed := some true,
          source := some "notion", source_id := some (some "z"),
          connection_id := some (some 7), created_at := some "t9" }).1.tasks,
      u.id = 1 ∧ u.source = "local" ∧ u.source_id = none ∧
      u.connection_id = none ∧ u.created_at = "t0" ∧ u.completed = 1) := by
  intro u hu
  have h := C10_dbUpdateTask_frame
    { tasks := [{ id := 1, title := "a", description := "", completed := 0,
                  due_date := none, source := "local", source_id := none,
                  source_url := none, connection_id := none,
                  created_at := "t0", updated_at := "t0" }],
      connections := [], nextTaskId := 2 } "t1" 1
    { id := some 99, title := some "b", completed := some true,
      source := some "notion", source_id := some (some "z"),
      connection_id := some (some 7), created_at := some "t9" }
  obtain ⟨v, hv, h1, h2, h3, h4, h5⟩ := h.1 u hu
  simp only [List.mem_singleton] at hv
  subst hv
  have hid : u.id = 1 := h1
  refine ⟨hid, h2, h3, h4, h5, ?_⟩
  exact h.2 true rfl u hu hid

/-- Claim C8: `pushTaskToNotion` never throws or rejects to its caller,
for every task, every changed-fields argument and every remote
behaviour, including failing pushes: failures are caught inside the
function and the call completes normally. -/
theorem C8_pushTaskToNotion_never_throws (env : RemoteEnv) (db : DB)
    (task : Task) (updates : TaskFields) :
    pushTaskToNotion env db task updates = Except.ok () := by
  unfold pushTaskToNotion
  cases task.source_id with
  | none => rfl
  | some sid =>
      simp only
      split
      · rfl
      · split
        · rfl
        · split <;> rfl

/-- Claim C6: `syncAllConnections` attempts `syncConnection` for exactly
the enabled connections of type notion, in list order, regardless of the
remote environment (in particular regardless of any connection whose
reconciliation throws), and itself always returns normally (it is a
total function into `DB × log`). -/
theorem C6_syncAll_isolation (env : RemoteEnv) (now : String) (db : DB) :
    (syncAllConnections env now db).2.map Prod.fst =
      ((dbGetAllConnections db).filter
        (fun c => c.enabled && c.type == "notion")).map Connection.id := by
  unfold syncAllConnections
  rw [syncAll_log_aux]
  simp

theorem trace_fetch_pos {x : RemoteEvent} :
    ∀ {P : List RemoteEvent}, (∀ e ∈ P, e.isFetch = false) →
      ∀ (j : Nat) (hj : j < (P ++ [x]).length),
        ((P ++ [x]).get ⟨j, hj⟩).isFetch = true → j = P.length := by
  intro P
  induction P with
  | nil =>
      intro _ j hj _
      simp only [List.nil_append, List.length_singleton] at hj
      simpa using Nat.lt_one_iff.mp hj
  | cons e P ih =>
      intro hP j hj hf
      cases j with
      | zero =>
          have he : ((e :: P ++ [x]).get ⟨0, hj⟩) = e := rfl
          rw [he, hP e (List.mem_cons_self e P)] at hf
          exact Bool.noConfusion hf
      | succ k =>
          have hj2 : k < (P ++ [x]).length := by
            simpa [Nat.succ_lt_succ_iff] using hj
          have he : ((e :: P ++ [x]).get ⟨k + 1, hj⟩) = (P ++ [x]).get ⟨k, hj2⟩ := rfl
          rw [he] at hf
          have := ih (fun e2 he2 => hP e2 (List.mem_cons_of_mem e he2)) k hj2 hf
          simp [List.length_cons, this]

theorem trace_push_pos {x : RemoteEvent} (hx : x.isPush = false) :
    ∀ {P : List RemoteEvent} (i : Nat) (hi : i < (P ++ [x]).length),
      ((P ++ [x]).get ⟨i, hi⟩).isPush = true → i < P.length := by
  intro P
  induction P with
  | nil =>
      intro i hi hp
      obtain rfl : i = 0 := by
        have h1 : i < 1 := by simpa using hi
        omega
      have he : (([] ++ [x] : List RemoteEvent).get ⟨0, hi⟩) = x := rfl
      rw [he, hx] at hp
      exact Bool.noConfusion hp
  | cons e P ih =>
      intro i hi hp
      cases i with
      | zero => simp
      | succ k =>
          have hi2 : k < (P ++ [x]).length := by
            simpa [Nat.succ_lt_succ_iff] using hi
          have he : ((e :: P ++ [x]).get ⟨k + 1, hi⟩) = (P ++ [x]).get ⟨k, hi2⟩ := rfl
          rw [he] at hp
          have := ih k hi2 hp
          simpa [Nat.succ_lt_succ_iff] using this

/-- Claim C5: within one `syncConnection` run, every completion push in
the trace of remote calls strictly precedes every pull fetch. -/
theorem C5_push_before_pull {env : RemoteEnv} {now : String} {db : DB}
    {conn : Connection} {db1 : DB} {tr : List RemoteEvent} {n : Nat}
    (h1 : syncConnection env now db conn = Except.ok (db1, tr, n))
    (i j : Nat) (hi : i < tr.length) (hj : j < tr.length)
    (hp : (tr.get ⟨i, hi⟩).isPush = true)
    (hf : (tr.get ⟨j, hj⟩).isFetch = true) : i < j := by
  obtain ⟨L, -, -, htr, -⟩ := syncConnection_ok_inv h1
  subst htr
  have hjeq := trace_fetch_pos pushEventsOf_no_fetch j hj hf
  have hilt := @trace_push_pos (RemoteEvent.fetchItems conn.config.database_id)
    rfl (pushEventsOf (notionSnapshot db) conn.id) i hi hp
  omega

/-- Witness for C5: on a concrete store with one pushable task, the
trace is `[pushCompletion, fetchItems]` and the theorem places the push
(index 0) before the fetch (index 1). -/
theorem C5_push_before_pull_witness :
    (syncTrace envA "t1" dbA connA).length = 2 ∧ (0 : Nat) < 1 :=
  ⟨by decide,
   C5_push_before_pull (Eq.refl (syncConnection envA "t1" dbA connA)) 0 1
     (by decide) (by decide) (by decide) (by decide)⟩

/-- Claim C7: a `syncConnection` run never creates, updates or deletes
a local-source task: every local-source task present before the call is
present, unchanged in every field, after the call, and every
local-source task present after the call was already present before. -/
theorem C7_local_frame {env : RemoteEnv} {now : String} {db : DB}
    {conn : Connection} {db1 : DB} {tr : List RemoteEvent} {n : Nat}
    (hwf : db.WF)
    (h1 : syncConnection env now db conn = Except.ok (db1, tr, n)) :
    (∀ t ∈ db.tasks, t.source = "local" → t ∈ db1.tasks) ∧
    (∀ u ∈ db1.tasks, u.source = "local" → u ∈ db.tasks) := by
  obtain ⟨L, -, hdb1, -, -⟩ := syncConnection_ok_inv h1
  subst hdb1
  have hwf1 : (reconcileDB now db conn.id L).WF := reconcile_WF now conn.id L hwf
  have hfwd : ∀ t ∈ db.tasks, t.source = "local" →
      t ∈ (reconcileDB now db conn.id L).tasks := by
    intro t ht hl
    have hS : ∀ s ∈ notionSnapshot db, s.id ≠ t.id := by
      intro s hs he
      obtain ⟨hsdb, hsno⟩ := mem_notionSnapshot.mp hs
      obtain rfl : s = t := wf_id_inj hwf hsdb ht he
      rw [hl] at hsno
      exact absurd hsno (by decide)
    rw [reconcile_tasks_eq]
    refine del_fold_keep _ _ _ ?_ (fun s hs he => ((hS s hs) he).elim)
    exact pull_fold_mem_keep _ _ _ L ht
      (fun it hit ex hex he => hS ex (lookup_mem hex).1 he)
  refine ⟨hfwd, ?_⟩
  intro u hu hl
  rcases reconcile_bwd hu with hc | hc
  · obtain ⟨v, hv, hve⟩ := hc
    have hvl : v.source = "local" := by rw [← hve.2.1, hl]
    have hv1 : v ∈ (reconcileDB now db conn.id L).tasks := hfwd v hv hvl
    obtain rfl : u = v := wf_id_inj hwf1 hu hv1 hve.1
    exact hv
  · rw [hc.2.1] at hl
    exact absurd hl (by decide)

/-- Witness for C7: the local task of a concrete store survives a
concrete reconcile run verbatim. -/
theorem C7_local_frame_witness :
    taskL ∈ (syncDB envA "t1" dbL connA).tasks :=
  (C7_local_frame (by decide)
    (Eq.refl (syncConnection envA "t1" dbL connA))).1 taskL (by decide) (by decide)

theorem TaskInv_of_coreEq {u v : Task} (he : coreEq u v) (hv : TaskInv v) :
    TaskInv u := by
  unfold TaskInv at hv ⊢
  rw [he.2.1, he.2.2.1, he.2.2.2.1]
  exact hv

/-- Claim C9: every task-creating and task-updating operation the
program performs preserves the data-model invariant: `source_id` and
`connection_id` both present or both absent, and `source_id` present
exactly when the source is non-local.  The three operations are the
user form creation, any `dbUpdateTask` call (reconciler update and user
edit), and a reconciler run; remote identifiers are nonempty Notion
block ids and connection ids are nonzero auto-increment keys. -/
theorem C9_invariant_preserved :
    (∀ (db : DB) (now title : String) (desc due : Option String),
      (∀ t ∈ db.tasks, TaskInv t) →
      ∀ u ∈ (dbCreateTask db now (formCreateBody title desc due)).1.tasks,
        TaskInv u) ∧
    (∀ (db : DB) (now : String) (i : Nat) (f : TaskFields),
      (∀ t ∈ db.tasks, TaskInv t) →
      ∀ u ∈ (dbUpdateTask db now i f).1.tasks, TaskInv u) ∧
    (∀ (env : RemoteEnv) (now : String) (db : DB) (conn : Connection)
       (db1 : DB) (tr : List RemoteEvent) (n : Nat) (L : List RemoteItem),
      conn.id ≠ 0 →
      env.fetchItems conn.config.token conn.config.database_id = Except.ok L →
      (∀ it ∈ L, it.source_id ≠ "") →
      (∀ t ∈ db.tasks, TaskInv t) →
      syncConnection env now db conn = Except.ok (db1, tr, n) →
      ∀ u ∈ db1.tasks, TaskInv u) := by
  refine ⟨?_, ?_, ?_⟩
  · intro db now title desc due hinv u hu
    rw [create_tasks_eq] at hu
    rcases List.mem_append.mp hu with h1 | h1
    · exact hinv u h1
    · simp only [List.mem_singleton] at h1
      subst h1
      constructor
      · show (strOrNull none).isSome ↔ (natOrNull none).isSome
        simp [strOrNull, natOrNull]
      · show (strOrNull none).isSome ↔ strOrD none "local" ≠ "local"
        simp [strOrNull, strOrD]
  · intro db now i f hinv u hu
    obtain ⟨v, hv, hve⟩ := upd_mem_core_bwd hu
    exact TaskInv_of_coreEq hve (hinv v hv)
  · intro env now db conn db1 tr n L hcid hfetch hsid hinv h1
    obtain ⟨L2, hf2, hdb1, -, -⟩ := syncConnection_ok_inv h1
    rw [hfetch] at hf2
    obtain rfl : L = L2 := by injection hf2
    subst hdb1
    intro u hu
    rcases reconcile_bwd hu with hc | hc
    · obtain ⟨v, hv, hve⟩ := hc
      exact TaskInv_of_coreEq hve (hinv v hv)
    · obtain ⟨-, hsrc, ⟨it, hit, hsid2⟩, hconn⟩ := hc
      constructor
      · rw [hsid2, hconn]
        simp [strOrNull, hsid it hit, natOrNull, hcid]
      · rw [hsid2, hsrc]
        simp [strOrNull, hsid it hit]

/-- Witness for C9: the invariant holds for the concrete task created
by the user form on an empty store. -/
theorem C9_invariant_preserved_witness :
    TaskInv
      { id := 1, title := "hi", description := "", completed := 0,
        due_date := none, source := "local", source_id := none,
        source_url := none, connection_id := none,
        created_at := "t1", updated_at := "t1" } :=
  C9_invariant_preserved.1 dbE "t1" "hi" none none (by decide) _ (by decide)

/-- Claim C3: after one `syncConnection` call, a task that belonged to
the connection at the start, has a truthy remote id, and whose remote
id is not among the fetched identifiers, no longer exists; such a task
whose remote id is among the fetched identifiers still exists. -/
theorem C3_orphan_deletion {env : RemoteEnv} {now : String} {db : DB}
    {conn : Connection} {db1 : DB} {tr : List RemoteEvent} {n : Nat}
    {L : List RemoteItem}
    (hwf : db.WF)
    (hfetch : env.fetchItems conn.config.token conn.config.database_id =
      Except.ok L)
    (h1 : syncConnection env now db conn = Except.ok (db1, tr, n))
    {t : Task} (ht : t ∈ db.tasks) (hsrc : t.source = "notion")
    (hconn : t.connection_id = some conn.id) {sid : String}
    (hsid : t.source_id = some sid) (hne : sid ≠ "") :
    (sid ∉ L.map RemoteItem.source_id → ∀ u ∈ db1.tasks, u.id ≠ t.id) ∧
    (sid ∈ L.map RemoteItem.source_id → ∃ u ∈ db1.tasks, u.id = t.id) := by
  obtain ⟨L2, hf2, hdb1, -, -⟩ := syncConnection_ok_inv h1
  rw [hfetch] at hf2
  obtain rfl : L = L2 := by injection hf2
  subst hdb1
  constructor
  · intro hnot u hu
    have htS : t ∈ notionSnapshot db := mem_notionSnapshot.mpr ⟨ht, hsrc⟩
    have hc : delCond (L.map RemoteItem.source_id) conn.id t = true :=
      delCond_true_of hsid hne hconn hnot
    rw [reconcile_tasks_eq] at hu
    exact del_fold_removed (L.map RemoteItem.source_id) conn.id htS hc u hu
  · intro hmem
    obtain ⟨v, hv, hve⟩ :=
      pull_fold_core_fwd (notionSnapshot db) conn.id now L hwf ht
    rw [reconcile_tasks_eq]
    refine ⟨v, ?_, hve.1⟩
    refine del_fold_keep _ _ _ hv (fun s hs he => ?_)
    obtain rfl : s = t :=
      wf_id_inj hwf (mem_notionSnapshot.mp hs).1 ht (by rw [he, hve.1])
    exact delCond_false_of_seen hsid hmem

/-- Witness for C3: on concrete stores, the orphan task (remote id "y",
remote list `["x"]`) is gone after the run, while the matched task
(remote id "x") persists. -/
theorem C3_orphan_deletion_witness :
    ((syncDB envA "t1" dbY connA).tasks.any (fun u => u.id == 2)) = false ∧
    ((syncDB envA "t1" dbA connA).tasks.any (fun u => u.id == 1)) = true := by
  constructor
  · have h := (C3_orphan_deletion (by decide)
      (Eq.refl (envA.fetchItems connA.config.token connA.config.database_id))
      (Eq.refl (syncConnection envA "t1" dbY connA))
      (show taskY ∈ dbY.tasks by decide) (by decide) (by decide)
      (show taskY.source_id = some "y" by decide) (by decide)).1 (by decide)
    rw [List.any_eq_false]
    intro u hu
    have := h u hu
    simpa [taskY] using this
  · have h := (C3_orphan_deletion (by decide)
      (Eq.refl (envA.fetchItems connA.config.token connA.config.database_id))
      (Eq.refl (syncConnection envA "t1" dbA connA))
      (show taskA ∈ dbA.tasks by decide) (by decide) (by decide)
      (show taskA.source_id = some "x" by decide) (by decide)).2 (by decide)
    obtain ⟨u, hu, hid⟩ := h
    rw [List.any_eq_true]
    exact ⟨u, hu, by simp [hid, taskA]⟩

/-- Claim C4: a task of the connection whose truthy remote id matches a
fetched remote item ends the cycle with its `title`, `description`,
`completed` and `source_url` equal to the remote item's values (with
`completed` stored as 1/0); in particular completed=false paired with a
remote completed=true ends at 1.  Remote identifiers are assumed
pairwise distinct in the fetched list and unique among the notion tasks
of the store, which the id-matching logic of the code relies on. -/
theorem C4_remote_wins {env : RemoteEnv} {now : String} {db : DB}
    {conn : Connection} {db1 : DB} {tr : List RemoteEvent} {n : Nat}
    {L : List RemoteItem}
    (hwf : db.WF)
    (hfetch : env.fetchItems conn.config.token conn.config.database_id =
      Except.ok L)
    (h1 : syncConnection env now db conn = Except.ok (db1, tr, n))
    {t : Task} (ht : t ∈ db.tasks) (hsrc : t.source = "notion")
    (hconn : t.connection_id = some conn.id)
    {it : RemoteItem} (hit : it ∈ L)
    (hsid : t.source_id = some it.source_id) (hne : it.source_id ≠ "")
    (hnodup : (L.map RemoteItem.source_id).Nodup)
    (huniq : ∀ u ∈ db.tasks, u.source = "notion" →
      u.source_id = some it.source_id → u = t) :
    ∃ u ∈ db1.tasks, u.id = t.id ∧ u.title = it.title ∧
      u.description = it.description ∧
      u.completed = (if it.completed then 1 else 0) ∧
      u.source_url = some it.source_url := by
  obtain ⟨L2, hf2, hdb1, -, -⟩ := syncConnection_ok_inv h1
  rw [hfetch] at hf2
  obtain rfl : L = L2 := by injection hf2
  subst hdb1
  have htS : t ∈ notionSnapshot db := mem_notionSnapshot.mpr ⟨ht, hsrc⟩
  obtain ⟨ex, hex⟩ := lookup_isSome_of_mem htS hsid hne
  obtain ⟨hexS, hexsid, -⟩ := lookup_mem hex
  have hext : ex = t :=
    huniq ex (mem_notionSnapshot.mp hexS).1 (mem_notionSnapshot.mp hexS).2 hexsid
  rw [hext] at hex
  obtain ⟨l1, l2, rfl⟩ := List.append_of_mem hit
  have hnotl2 : it.source_id ∉ l2.map RemoteItem.source_id := by
    rw [List.map_append, List.map_cons] at hnodup
    have := (List.nodup_append.mp hnodup).2.1
    exact (List.nodup_cons.mp this).1
  rw [reconcile_tasks_eq, List.foldl_append, List.foldl_cons]
  set dbM := l1.foldl (pullStep (notionSnapshot db) conn.id now) db with hdbM
  obtain ⟨v1, hv1, hv1e⟩ :=
    pull_fold_core_fwd (notionSnapshot db) conn.id now l1 hwf ht
  rw [← hdbM] at hv1
  have hfound : (dbM.tasks.find? (fun x => x.id == t.id)).isSome :=
    List.find?_isSome.mpr ⟨v1, hv1, by simp [hv1e.1]⟩
  obtain ⟨w, hw⟩ := Option.isSome_iff_exists.mp hfound
  have hwid : w.id = t.id := by simpa using List.find?_some hw
  have hstep : pullStep (notionSnapshot db) conn.id now dbM it =
      (dbUpdateTask dbM now t.id
        { title := some it.title
          description := some it.description
          completed := some it.completed
          source_url := some (some it.source_url) }).1 := by
    unfold pullStep
    rw [hex]
  set u0 := applyTaskFields w
    { title := some it.title
      description := some it.description
      completed := some it.completed
      source_url := some (some it.source_url) } now with hu0
  have hu0mem : u0 ∈ (pullStep (notionSnapshot db) conn.id now dbM it).tasks := by
    rw [hstep]
    exact upd_result_mem hw
  have hu0id : u0.id = t.id := by
    rw [hu0]
    show w.id = t.id
    exact hwid
  have hu0fields : u0.title = it.title ∧ u0.description = it.description ∧
      u0.completed = (if it.completed then 1 else 0) ∧
      u0.source_url = some it.source_url := by
    rw [hu0]
    exact ⟨rfl, rfl, rfl, rfl⟩
  have hmem2 : u0 ∈ (l2.foldl (pullStep (notionSnapshot db) conn.id now)
      (pullStep (notionSnapshot db) conn.id now dbM it)).tasks := by
    refine pull_fold_mem_keep _ _ _ l2 hu0mem (fun it2 h2 ex2 hex2 he2 => ?_)
    obtain ⟨hex2S, hex2sid, -⟩ := lookup_mem hex2
    rw [hu0id] at he2
    obtain rfl : ex2 = t :=
      wf_id_inj hwf (mem_notionSnapshot.mp hex2S).1 ht he2
    have hts : some it.source_id = some it2.source_id := by
      rw [← hsid, hex2sid]
    have heq : it.source_id = it2.source_id := by injection hts
    refine hnotl2 ?_
    rw [heq]
    exact List.mem_map.mpr ⟨it2, h2, rfl⟩
  refine ⟨u0, ?_, hu0id, hu0fields.1, hu0fields.2.1, hu0fields.2.2.1,
    hu0fields.2.2.2⟩
  refine del_fold_keep _ _ _ hmem2 (fun s hs he => ?_)
  obtain rfl : s = t :=
    wf_id_inj hwf (mem_notionSnapshot.mp hs).1 ht (by rw [he, hu0id])
  refine delCond_false_of_seen hsid ?_
  rw [List.map_append, List.map_cons]
  exact List.mem_append_right _ (List.mem_cons_self _ _)

/-- Witness for C4: the concrete store with a not-yet-completed task
matching a remote item completed remotely ends the cycle with the
remote values (completed stored as 1). -/
theorem C4_remote_wins_witness :
    ((syncDB envA "t1" dbA connA).tasks.any
      (fun u => u.id == 1 && u.title == "Buy" && u.description == "Page" &&
        u.completed == 1 && u.source_url == some "u#x")) = true := by
  have h := C4_remote_wins (by decide)
    (Eq.refl (envA.fetchItems connA.config.token connA.config.database_id))
    (Eq.refl (syncConnection envA "t1" dbA connA))
    (show taskA ∈ dbA.tasks by decide) (by decide) (by decide)
    (show itemX ∈ [itemX] by decide)
    (show taskA.source_id = some itemX.source_id by decide) (by decide)
    (by decide) (by decide)
  obtain ⟨u, hu, hid, hti, hde, hco, hur⟩ := h
  rw [List.any_eq_true]
  exact ⟨u, hu, by simp [hid, hti, hde, hco, hur, taskA, itemX]⟩

/-- Counterexample to C2 as stated: in `dbB` the only task carries
remote id "x" but belongs to connection 2, so remote item "x" matches
no task of connection 1; after reconciling connection 1 the store still
holds exactly the task with id 1 and no task of connection 1 — no new
local task was created for connection 1, because the lookup spans the
notion tasks of all connections. -/
theorem C2_counterexample :
    (dbB.tasks.all (fun t2 => !(t2.connection_id == some connA.id))) = true ∧
    (syncDB envA "t1" dbB connA).tasks.map Task.id = [1] ∧
    ((syncDB envA "t1" dbB connA).tasks.all
      (fun u => !(u.connection_id == some connA.id))) = true := by
  decide

/-- Claim C2 (amended): the pull-phase lookup is built from all
notion-source local tasks with a truthy remote id, regardless of
connection; a new local task with source notion and this connection's
id is created for a fetched remote item exactly when its remote id
matches no notion-source task of any connection. -/
theorem C2_cross_connection_lookup {env : RemoteEnv} {now : String}
    {db : DB} {conn : Connection} {db1 : DB} {tr : List RemoteEvent}
    {n : Nat} {L : List RemoteItem}
    (hwf : db.WF) (hcid : conn.id ≠ 0)
    (hfetch : env.fetchItems conn.config.token conn.config.database_id =
      Except.ok L)
    (h1 : syncConnection env now db conn = Except.ok (db1, tr, n))
    {it : RemoteItem} (hit : it ∈ L) (hne : it.source_id ≠ "")
    (hnone : ∀ u ∈ db.tasks, u.source = "notion" →
      u.source_id ≠ some it.source_id) :
    ∃ u ∈ db1.tasks, u.source = "notion" ∧
      u.connection_id = some conn.id ∧
      u.source_id = some it.source_id ∧ u.title = it.title ∧
      u.description = it.description ∧
      u.completed = (if it.completed then 1 else 0) ∧
      u.source_url = strOrNull (some it.source_url) ∧
      db.nextTaskId ≤ u.id := by
  obtain ⟨L2, hf2, hdb1, -, -⟩ := syncConnection_ok_inv h1
  rw [hfetch] at hf2
  obtain rfl : L = L2 := by injection hf2
  subst hdb1
  have hlk : lookupBySourceId (notionSnapshot db) it.source_id = none := by
    cases hl : lookupBySourceId (notionSnapshot db) it.source_id with
    | none => rfl
    | some ex =>
        obtain ⟨hexS, hexsid, -⟩ := lookup_mem hl
        exact absurd hexsid (hnone ex (mem_notionSnapshot.mp hexS).1
          (mem_notionSnapshot.mp hexS).2)
  obtain ⟨l1, l2, rfl⟩ := List.append_of_mem hit
  rw [reconcile_tasks_eq, List.foldl_append, List.foldl_cons]
  set dbM := l1.foldl (pullStep (notionSnapshot db) conn.id now) db with hdbM
  have hstep : pullStep (notionSnapshot db) conn.id now dbM it =
      (dbCreateTask dbM now
        { title := some it.title
          description := some it.description
          completed := some it.completed
          source_id := some it.source_id
          source_url := some it.source_url
          source := some "notion"
          connection_id := some conn.id }).1 := by
    unfold pullStep
    rw [hlk]
  set tc := (dbCreateTask dbM now
    { title := some it.title
      description := some it.description
      completed := some it.completed
      source_id := some it.source_id
      source_url := some it.source_url
      source := some "notion"
      connection_id := some conn.id }).2 with htc
  have htcid : tc.id = dbM.nextTaskId := rfl
  have hbound : db.nextTaskId ≤ tc.id := by
    rw [htcid, hdbM]
    exact pull_fold_next_mono _ _ _ l1 db
  have hmem1 : tc ∈ (pullStep (notionSnapshot db) conn.id now dbM it).tasks := by
    rw [hstep, create_tasks_eq]
    exact List.mem_append_right _ (List.mem_singleton.mpr rfl)
  have hmem2 : tc ∈ (l2.foldl (pullStep (notionSnapshot db) conn.id now)
      (pullStep (notionSnapshot db) conn.id now dbM it)).tasks := by
    refine pull_fold_mem_keep _ _ _ l2 hmem1 (fun it2 h2 ex hex he => ?_)
    obtain ⟨hexS, -, -⟩ := lookup_mem hex
    have := snapshot_id_lt hwf hexS
    omega
  refine ⟨tc, ?_, ?_, ?_, ?_, rfl, rfl, rfl, rfl, hbound⟩
  · refine del_fold_keep _ _ _ hmem2 (fun s hs he => ?_)
    have := snapshot_id_lt hwf hs
    omega
  · show strOrD (some "notion") "local" = "notion"
    simp [strOrD]
  · show natOrNull (some conn.id) = some conn.id
    simp [natOrNull, hcid]
  · show strOrNull (some it.source_id) = some it.source_id
    simp [strOrNull, hne]

/-- Witness for the amended C2: reconciling the empty store creates the
task for the remote item, owned by connection 1. -/
theorem C2_cross_connection_lookup_witness :
    ((syncDB envA "t1" dbE connA).tasks.any
      (fun u => u.source == "notion" && u.connection_id == some 1 &&
        u.source_id == some "x" && u.title == "Buy" &&
        u.completed == 1)) = true := by
  have h := C2_cross_connection_lookup (by decide) (by decide)
    (Eq.refl (envA.fetchItems connA.config.token connA.config.database_id))
    (Eq.refl (syncConnection envA "t1" dbE connA))
    (show itemX ∈ [itemX] by decide) (by decide) (by decide)
  obtain ⟨u, hu, h1, h2, h3, h4, h5, h6, h7, h8⟩ := h
  rw [List.any_eq_true]
  exact ⟨u, hu, by simp [h1, h2, h3, h4, h6, itemX, connA]⟩

/-- Claim C1: running `syncConnection` twice with the remote list
unchanged (the same environment, whose items carry nonempty remote ids)
leaves the task set unchanged after the second run: every remote item
matches an existing local task after the first run, and the second run
creates and deletes nothing (the lists of task ids coincide). -/
theorem C1_reconcile_idempotent {env : RemoteEnv} {now1 now2 : String}
    {db : DB} {conn : Connection} {L : List RemoteItem} {db1 db2 : DB}
    {tr1 tr2 : List RemoteEvent} {n1 n2 : Nat}
    (hwf : db.WF)
    (hfetch : env.fetchItems conn.config.token conn.config.database_id =
      Except.ok L)
    (hsid : ∀ it ∈ L, it.source_id ≠ "")
    (h1 : syncConnection env now1 db conn = Except.ok (db1, tr1, n1))
    (h2 : syncConnection env now2 db1 conn = Except.ok (db2, tr2, n2)) :
    (∀ it ∈ L, ∃ u ∈ db1.tasks, u.source = "notion" ∧
      u.source_id = some it.source_id) ∧
    db2.tasks.map Task.id = db1.tasks.map Task.id := by
  obtain ⟨L1, hf1, hdb1, -, -⟩ := syncConnection_ok_inv h1
  rw [hfetch] at hf1
  obtain rfl : L = L1 := by injection hf1
  subst hdb1
  have hA : ∀ it ∈ L, ∃ u ∈ (reconcileDB now1 db conn.id L).tasks,
      u.source = "notion" ∧ u.source_id = some it.source_id :=
    fun it hit => reconcile_ensure now1 conn.id hwf hit (hsid it hit)
  refine ⟨hA, ?_⟩
  obtain ⟨L2, hf2, hdb2, -, -⟩ := syncConnection_ok_inv h2
  rw [hfetch] at hf2
  obtain rfl : L = L2 := by injection hf2
  subst hdb2
  have hfound : ∀ it ∈ L, ∃ ex,
      lookupBySourceId (notionSnapshot (reconcileDB now1 db conn.id L))
        it.source_id = some ex := by
    intro it hit
    obtain ⟨u, hu, hsrc, hs⟩ := hA it hit
    exact lookup_isSome_of_mem (mem_notionSnapshot.mpr ⟨hu, hsrc⟩) hs
      (hsid it hit)
  have hnodel : ∀ s ∈ notionSnapshot (reconcileDB now1 db conn.id L),
      delCond (L.map RemoteItem.source_id) conn.id s = false := by
    intro s hs
    cases hb : delCond (L.map RemoteItem.source_id) conn.id s with
    | false => rfl
    | true =>
        obtain ⟨sid2, hssid, hne2, hsconn, hnot⟩ := delCond_elim hb
        obtain ⟨hsdb, hsno⟩ := mem_notionSnapshot.mp hs
        exact absurd (reconcile_seen s hsdb hsno hsconn sid2 hssid hne2) hnot
  rw [reconcile_tasks_eq,
    del_fold_id_of_all_false (L.map RemoteItem.source_id) conn.id _ _ hnodel]
  exact pull_fold_map_id_of_found _ _ _ L _ hfound

/-- Witness for C1: a concrete double run on the empty store, with the
same remote list both times, keeps the task id list of the first run. -/
theorem C1_reconcile_idempotent_witness :
    (syncDB envA "t2" (syncDB envA "t1" dbE connA) connA).tasks.map Task.id =
      (syncDB envA "t1" dbE connA).tasks.map Task.id :=
  (C1_reconcile_idempotent (by decide)
    (Eq.refl (envA.fetchItems connA.config.token connA.config.database_id))
    (by decide)
    (Eq.refl (syncConnection envA "t1" dbE connA))
    (Eq.refl (syncConnection envA "t2" (syncDB envA "t1" dbE connA) connA))).2

end TaskMgr
